import Mathlib

/-!
Verification of the Contextual Memory Graph System
(`contextual_memory_mvp.py`).

The Python source is shallowly embedded: SQLite tables become Lean lists
keyed by the `id` field (`INSERT OR REPLACE` becomes a keyed
replace-or-append), Python floats (timestamps, scores) become rationals,
and the regex-based `NLPProcessor.extract_entities` /
`extract_relationships` are abstracted as a function record, matching the
spec's treatment of the Annotator as an external collaborator.
`calculate_text_similarity` and every piece of core logic
(`weave_memory`, `find_related_memories`, `get_entity_network`, the
system facade) are translated statement by statement from the source.
-/

namespace ContextualMemory

/-- `Entity` dataclass.  `properties` in the source is a dict that only
ever holds the key `contexts`; it is embedded as the list of contexts.
The field `type` is a Lean keyword, so it is named `etype`. -/
structure Entity where
  id : String
  name : String
  etype : String
  contexts : List String
  created_at : ℚ
  last_accessed : ℚ
  access_count : Nat
  importance_score : ℚ
deriving DecidableEq

/-- `Relationship` dataclass. -/
structure Relationship where
  id : String
  source_id : String
  target_id : String
  relation_type : String
  strength : ℚ
  context : String
  created_at : ℚ
  last_reinforced : ℚ
deriving DecidableEq

/-- `Memory` dataclass. -/
structure Memory where
  id : String
  content : String
  entities : List String
  relationships : List String
  timestamp : ℚ
  context_tags : List String
  importance : ℚ
deriving DecidableEq

/-- The three SQLite tables of `MobileGraphStorage`.  Each table is a list
of rows; the `id` column is the primary key. -/
structure Store where
  entities : List Entity
  relationships : List Relationship
  memories : List Memory
deriving DecidableEq

/-- The external Annotator interface (`NLPProcessor`'s two regex-driven
extraction methods), abstracted as in section 6 of the design. -/
structure NLP where
  extract_entities : String → List (String × String × String)
  extract_relationships : String → List String → List (String × String × String × String)

/-- One `rel_data` dict of `get_entity_network`.  The key `type` is a Lean
keyword, so it is named `rtype`. -/
structure RelDisplay where
  source : String
  target : String
  rtype : String
  strength : ℚ
  context : String
deriving DecidableEq

/-- The `network` dict returned by `get_entity_network`.  The Python
`connected_entities` set is embedded as a duplicate-free list in first-seen
order (its only observable uses in the claims are emptiness and content). -/
structure Network where
  center_entity : String
  relationships : List RelDisplay
  connected_entities : List String
deriving DecidableEq

/-- `ScoredMemory`: one result dict of `find_related_memories`. -/
structure ScoredMemory where
  id : String
  content : String
  score : ℚ
  timestamp : ℚ
  importance : ℚ
deriving DecidableEq

/-- Python `str.lower()` (each character lower-cased), written as a map
over the character list so that it reduces inside the kernel. -/
def pyLower (s : String) : String :=
  String.mk (s.data.map Char.toLower)

/-- Python `str.split()` on an already lower-cased string: split on runs
of whitespace, dropping empty fragments; `acc` holds the current word
reversed. -/
def splitWsAux : List Char → List Char → List String
  | [], acc => if acc.isEmpty then [] else [String.mk acc.reverse]
  | c :: cs, acc =>
    if c.isWhitespace then
      if acc.isEmpty then splitWsAux cs []
      else String.mk acc.reverse :: splitWsAux cs []
    else splitWsAux cs (c :: acc)

/-- `INSERT OR REPLACE` into a table whose primary key is `key`: if a row
with the new row's key exists it is replaced, otherwise the row is
appended. -/
def upsertBy {α β : Type} [DecidableEq β] (key : α → β) (l : List α) (a : α) : List α :=
  if l.any (fun x => decide (key x = key a)) then
    l.map (fun x => if key x = key a then a else x)
  else
    l ++ [a]

/-- `MobileGraphStorage.get_entity`. -/
def get_entity (st : Store) (entity_id : String) : Option Entity :=
  st.entities.find? (fun e => decide (e.id = entity_id))

/-- `MobileGraphStorage.store_entity`. -/
def store_entity (st : Store) (e : Entity) : Store :=
  { st with entities := upsertBy Entity.id st.entities e }

/-- `ContextWeaver._store_relationship`. -/
def store_relationship (st : Store) (r : Relationship) : Store :=
  { st with relationships := upsertBy Relationship.id st.relationships r }

/-- `ContextWeaver._store_memory`. -/
def store_memory (st : Store) (m : Memory) : Store :=
  { st with memories := upsertBy Memory.id st.memories m }

/-- The body of the per-entity loop of `ContextWeaver.weave_memory`
(lines 269-295): look the entity up by the id of its lower-cased name;
if present bump `last_accessed`, `access_count`, `importance_score`;
otherwise create it with the initial field values.  `gid` abstracts
`_generate_id` (md5 digest truncation). -/
def process_entity (gid : String → String) (now : ℚ) (st : Store)
    (entity_name entity_type entity_context : String) : Store × String :=
  let entity_id := gid (pyLower entity_name)
  match get_entity st entity_id with
  | some existing_entity =>
      (store_entity st
        { existing_entity with
          last_accessed := now
          access_count := existing_entity.access_count + 1
          importance_score := existing_entity.importance_score + 1/10 }, entity_id)
  | none =>
      (store_entity st
        { id := entity_id, name := entity_name, etype := entity_type
          contexts := [entity_context], created_at := now, last_accessed := now
          access_count := 1, importance_score := 1/2 }, entity_id)

/-- The body of the per-relationship loop of `ContextWeaver.weave_memory`
(lines 302-320): build a fresh record with initial strength `0.7` and
`created_at = last_reinforced = now`, and `INSERT OR REPLACE` it. -/
def process_relationship (gid : String → String) (now : ℚ) (st : Store)
    (source target relation_type rel_context : String) : Store × String :=
  let source_id := gid (pyLower source)
  let target_id := gid (pyLower target)
  let relationship_id := gid (source_id ++ "_" ++ target_id ++ "_" ++ relation_type)
  (store_relationship st
    { id := relationship_id, source_id := source_id, target_id := target_id
      relation_type := relation_type, strength := 7/10, context := rel_context
      created_at := now, last_reinforced := now }, relationship_id)

/-- One step of the entity loop accumulating `(storage, entity_objects)`. -/
def weaveEntitiesStep (gid : String → String) (now : ℚ)
    (acc : Store × List String) (cand : String × String × String) : Store × List String :=
  ((process_entity gid now acc.1 cand.1 cand.2.1 cand.2.2).1,
   acc.2 ++ [(process_entity gid now acc.1 cand.1 cand.2.1 cand.2.2).2])

/-- One step of the relationship loop accumulating
`(storage, relationship_objects)`. -/
def weaveRelationshipsStep (gid : String → String) (now : ℚ)
    (acc : Store × List String) (cand : String × String × String × String) : Store × List String :=
  ((process_relationship gid now acc.1 cand.1 cand.2.1 cand.2.2.1 cand.2.2.2).1,
   acc.2 ++ [(process_relationship gid now acc.1 cand.1 cand.2.1 cand.2.2.1 cand.2.2.2).2])

/-- `ContextWeaver._calculate_memory_importance`. -/
def calculate_memory_importance (content : String) (entities : List String) : ℚ :=
  let base_score : ℚ := 1/2
  let entity_boost := min ((entities.length : ℚ) * (1/10)) (3/10)
  let length_boost := min ((content.length : ℚ) / 1000) (1/5)
  base_score + entity_boost + length_boost

/-- `ContextWeaver.weave_memory`: returns the `Memory` object together
with the storage state after all writes. -/
def weave_memory (gid : String → String) (nlp : NLP) (now : ℚ)
    (content : String) (context_tags : List String) (st : Store) : Memory × Store :=
  let memory_id := gid (content ++ toString now)
  let extracted_entities := nlp.extract_entities content
  let entPass := extracted_entities.foldl (weaveEntitiesStep gid now) (st, [])
  let entity_names := extracted_entities.map (fun c => c.1)
  let extracted_relationships := nlp.extract_relationships content entity_names
  let relPass := extracted_relationships.foldl (weaveRelationshipsStep gid now) (entPass.1, [])
  let memory : Memory :=
    { id := memory_id, content := content, entities := entPass.2
      relationships := relPass.2, timestamp := now, context_tags := context_tags
      importance := calculate_memory_importance content entPass.2 }
  (memory, store_memory relPass.1 memory)

/-- `text.lower().split()`: the lower-cased whitespace-tokenized word
list. -/
def pyWords (s : String) : List String :=
  splitWsAux (pyLower s).data []

/-- `NLPProcessor.calculate_text_similarity`: Jaccard overlap of the two
lower-cased word sets, `0` if either set is empty. -/
def calculate_text_similarity (text1 text2 : String) : ℚ :=
  let words1 := (pyWords text1).dedup
  let words2 := (pyWords text2).dedup
  if words1 = [] ∨ words2 = [] then 0
  else ((words1.filter (fun w => words2.contains w)).length : ℚ) /
    (((words1 ++ words2).dedup).length : ℚ)

/-- The per-memory relevance score of `find_related_memories`:
`content_similarity + entity_boost + importance * 0.1`. -/
def total_score (nlp : NLP) (query : String) (m : Memory) : ℚ :=
  let content_similarity := calculate_text_similarity query m.content
  let entity_boost : ℚ :=
    if nlp.extract_entities query ≠ [] ∧ m.entities ≠ [] then 1/5 else 0
  content_similarity + entity_boost + m.importance * (1/10)

/-- The result dict appended for one scored memory. -/
def scoreEntry (nlp : NLP) (query : String) (m : Memory) : ScoredMemory :=
  { id := m.id, content := m.content, score := total_score nlp query m
    timestamp := m.timestamp, importance := m.importance }

/-- The claim-side characterisation of the scoring loop: the entry kept
iff its score clears the `0.1` floor. -/
def scoreFilter (nlp : NLP) (query : String) (m : Memory) : Option ScoredMemory :=
  if total_score nlp query m > 1/10 then some (scoreEntry nlp query m) else none

/-- Stable insertion: `x` is placed before the first element `y` for which
`lt y x` fails, so equal elements keep their original relative order.
This models both SQLite `ORDER BY` (on a deterministic table order) and
Python's stable `list.sort`. -/
def insertS {α : Type} (lt : α → α → Bool) (x : α) : List α → List α
  | [] => [x]
  | y :: ys => if lt y x then y :: insertS lt x ys else x :: y :: ys

/-- Stable sort built from `insertS`. -/
def sortS {α : Type} (lt : α → α → Bool) : List α → List α
  | [] => []
  | x :: xs => insertS lt x (sortS lt xs)

/-- The `ORDER BY importance DESC, timestamp DESC` of the memory scan. -/
def memOrder (a b : Memory) : Bool :=
  decide (a.importance > b.importance) ||
    (decide (a.importance = b.importance) && decide (a.timestamp > b.timestamp))

/-- `scored_memories.sort(key=lambda x: x['score'], reverse=True)`. -/
def scoreDesc (a b : ScoredMemory) : Bool :=
  decide (a.score > b.score)

/-- `ORDER BY r.strength DESC` on joined relationship rows. -/
def relStrengthDesc (a b : Relationship × String × String) : Bool :=
  decide (a.1.strength > b.1.strength)

/-- The `SELECT ... FROM memories ORDER BY importance DESC, timestamp DESC`
scan feeding the scoring loop. -/
def loadMemories (st : Store) : List Memory :=
  sortS memOrder st.memories

/-- The scored entries that clear the relevance floor, in scan order. -/
def relevantMemories (nlp : NLP) (query : String) (st : Store) : List ScoredMemory :=
  (loadMemories st).filterMap (scoreFilter nlp query)

/-- `MemoryRetriever.find_related_memories`: scan, score, keep entries
with score above `0.1`, sort by score descending, truncate to `limit`. -/
def find_related_memories (nlp : NLP) (query : String) (limit : Nat) (st : Store) :
    List ScoredMemory :=
  let memories := loadMemories st
  let scored_memories := memories.foldl
    (fun acc m =>
      if total_score nlp query m > 1/10 then acc ++ [scoreEntry nlp query m] else acc)
    []
  (sortS scoreDesc scored_memories).take limit

/-- Character-list test used to embed SQL substring `LIKE`:
does `needle` start `hay`? -/
def isPrefixList : List Char → List Char → Bool
  | [], _ => true
  | _ :: _, [] => false
  | a :: as, b :: bs => (a == b) && isPrefixList as bs

/-- Does `needle` occur contiguously inside `hay`? -/
def occursIn (needle : List Char) : List Char → Bool
  | [] => isPrefixList needle []
  | c :: rest => isPrefixList needle (c :: rest) || occursIn needle rest

/-- `LOWER(e.name) LIKE '%' || LOWER(entity_name) || '%'`: case-insensitive
substring match of the query against a stored entity name. -/
def likeContains (name entity_name : String) : Bool :=
  occursIn (pyLower entity_name).toList (pyLower name).toList

/-- Largest lower-cased stored entity-name length; bounds the fallback
recursion depth. -/
def maxNameLen (st : Store) : Nat :=
  st.entities.foldl (fun acc e => max acc (pyLower e.name).toList.length) 0

/-- `set.add` on the `connected_entities` accumulator. -/
def addConnected (l : List String) (s : String) : List String :=
  if l.contains s then l else l ++ [s]

/-- Both `set.add` calls of the row loop, folded over all rows. -/
def connectedOf (rows : List (Relationship × String × String)) : List String :=
  rows.foldl (fun acc row => addConnected (addConnected acc row.2.1) row.2.2) []

/-- One `rel_data` dict built from a joined row
`(relationship, source_name, target_name)`. -/
def rowToDisplay (row : Relationship × String × String) : RelDisplay :=
  { source := row.2.1, target := row.2.2, rtype := row.1.relation_type
    strength := row.1.strength, context := row.1.context }

/-- The join
`FROM relationships r JOIN entities e1 ON r.source_id = e1.id
 JOIN entities e2 ON r.target_id = e2.id
 WHERE r.source_id = ? OR r.target_id = ?`
(the `ORDER BY` is applied by the caller). -/
def networkRows (gid : String → String) (st : Store) (entity_name : String) :
    List (Relationship × String × String) :=
  let entity_id := gid (pyLower entity_name)
  st.relationships.flatMap fun r =>
    st.entities.flatMap fun e1 =>
      st.entities.flatMap fun e2 =>
        if r.source_id = e1.id ∧ r.target_id = e2.id ∧
            (r.source_id = entity_id ∨ r.target_id = entity_id) then
          [(r, e1.name, e2.name)]
        else []

/-- `MemoryRetriever.get_entity_network`, with explicit recursion fuel
(the Python source recurses without a guard; `none` means the fuel ran
out before the recursion bottomed out). -/
def getEntityNetworkF (gid : String → String) (st : Store) :
    Nat → String → Option Network
  | 0, _ => none
  | fuel + 1, entity_name =>
    let sorted := sortS relStrengthDesc (networkRows gid st entity_name)
    let network : Network :=
      { center_entity := entity_name
        relationships := sorted.map rowToDisplay
        connected_entities := connectedOf sorted }
    if sorted.isEmpty then
      match st.entities.filter (fun e => likeContains e.name entity_name) with
      | [] => some network
      | m :: _ =>
        if pyLower m.name = pyLower entity_name then some network
        else getEntityNetworkF gid st fuel m.name
    else some network

/-- `get_entity_network` run with enough fuel for the recursion to
complete (see the termination theorem); the default is never used. -/
def get_entity_network (gid : String → String) (st : Store) (entity_name : String) :
    Network :=
  (getEntityNetworkF gid st (maxNameLen st + 2) entity_name).getD
    { center_entity := entity_name, relationships := [], connected_entities := [] }

/-- `ContextualMemorySystem.add_memory`: weaves the memory and returns the
formatted message `f"Memory stored with ID: {memory.id}"`. -/
def add_memory (gid : String → String) (nlp : NLP) (now : ℚ)
    (content : String) (context_tags : List String) (st : Store) : Store × String :=
  let woven := weave_memory gid nlp now content context_tags st
  (woven.2, "Memory stored with ID: " ++ woven.1.id)

/-- `ContextualMemorySystem.query_memory`: the body only issues reads, so
the state it threads through is returned untouched. -/
def query_memory (nlp : NLP) (query : String) (limit : Nat) (st : Store) :
    Store × List ScoredMemory :=
  (st, find_related_memories nlp query limit st)

/-- `ContextualMemorySystem.explore_entity`: read-only like
`query_memory`. -/
def explore_entity (gid : String → String) (st : Store) (entity_name : String) :
    Store × Network :=
  (st, get_entity_network gid st entity_name)

/-- Stores reachable from a fresh database through the core's only
mutating operation, `weave_memory`. -/
inductive Reachable (gid : String → String) : Store → Prop
  | init : Reachable gid { entities := [], relationships := [], memories := [] }
  | step (nlp : NLP) (now : ℚ) (content : String) (tags : List String) (st : Store) :
      Reachable gid st → Reachable gid (weave_memory gid nlp now content tags st).2

/-- Concrete digest used by the witnesses: the identity (an injective
stand-in for the truncated md5 digest). -/
def demoGid : String → String := fun s => s

/-- Annotator that extracts nothing. -/
def noNLP : NLP :=
  { extract_entities := fun _ => [], extract_relationships := fun _ _ => [] }

/-- Annotator that extracts one fixed relationship and no entities. -/
def relNLP : NLP :=
  { extract_entities := fun _ => []
    extract_relationships := fun _ _ => [("a", "b", "WORKS_AT", "ctx")] }

/-- Store holding one entity, used by upsert witnesses. -/
def demoStore : Store :=
  { entities := [{ id := "bob", name := "Bob", etype := "PERSON", contexts := []
                   created_at := 0, last_accessed := 0, access_count := 1
                   importance_score := 1/2 }]
    relationships := [], memories := [] }

/-- Store with a relationship whose target id has no entity row. -/
def danglingStore : Store :=
  { entities := [{ id := "alice", name := "Alice", etype := "PERSON", contexts := []
                   created_at := 0, last_accessed := 0, access_count := 1
                   importance_score := 1/2 }]
    relationships := [{ id := "alice_bob_KNOWS", source_id := "alice", target_id := "bob"
                        relation_type := "KNOWS", strength := 7/10, context := "c"
                        created_at := 0, last_reinforced := 0 }]
    memories := [] }

/-- Store where both endpoints of the relationship have entity rows. -/
def joinStore : Store :=
  { entities := [{ id := "alice", name := "Alice", etype := "PERSON", contexts := []
                   created_at := 0, last_accessed := 0, access_count := 1
                   importance_score := 1/2 },
                 { id := "bob", name := "Bob", etype := "PERSON", contexts := []
                   created_at := 0, last_accessed := 0, access_count := 1
                   importance_score := 1/2 }]
    relationships := [{ id := "alice_bob_KNOWS", source_id := "alice", target_id := "bob"
                        relation_type := "KNOWS", strength := 7/10, context := "c"
                        created_at := 0, last_reinforced := 0 }]
    memories := [] }

/-- Store holding two memories, used by the retrieval witness. -/
def memStore : Store :=
  { entities := [], relationships := []
    memories := [{ id := "m1", content := "hello world", entities := []
                   relationships := [], timestamp := 1, context_tags := []
                   importance := 1/2 },
                 { id := "m2", content := "unrelated text", entities := []
                   relationships := [], timestamp := 2, context_tags := []
                   importance := 1/2 }] }

theorem map_key_replace {α β : Type} [DecidableEq β] (key : α → β) (a : α) (l : List α) :
    (l.map (fun x => if key x = key a then a else x)).map key = l.map key := by
  induction l with
  | nil => rfl
  | cons x xs ih =>
    simp only [List.map_cons]
    rw [ih]
    by_cases h : key x = key a
    · rw [if_pos h, h]
    · rw [if_neg h]

theorem countP_key_replace {α β : Type} [DecidableEq β] (key : α → β) (a : α) (l : List α) :
    (l.map (fun x => if key x = key a then a else x)).countP
      (fun x => decide (key x = key a)) = l.countP (fun x => decide (key x = key a)) := by
  induction l with
  | nil => rfl
  | cons x xs ih =>
    simp only [List.map_cons, List.countP_cons]
    rw [ih]
    by_cases h : key x = key a
    · simp [h]
    · simp [h]

theorem upsertBy_map_key {α β : Type} [DecidableEq β] (key : α → β) (l : List α) (a : α) :
    ((upsertBy key l a).map key) = l.map key ∨
      ((upsertBy key l a).map key) = l.map key ++ [key a] := by
  unfold upsertBy
  split
  · left
    exact map_key_replace key a l
  · right
    simp

theorem upsertBy_nodup {α β : Type} [DecidableEq β] (key : α → β) (l : List α) (a : α)
    (h : (l.map key).Nodup) : ((upsertBy key l a).map key).Nodup := by
  unfold upsertBy
  split
  · next hany =>
    rw [map_key_replace key a l]
    exact h
  · next hany =>
    rw [Bool.not_eq_true] at hany
    have hnotmem : key a ∉ l.map key := by
      intro hmem
      rcases List.mem_map.mp hmem with ⟨x, hx, hkx⟩
      have := List.any_eq_false.mp hany x hx
      simp [hkx] at this
    simp [List.nodup_append, h, hnotmem]

theorem upsertBy_mem {α β : Type} [DecidableEq β] (key : α → β) (l : List α) (a : α)
    (x : α) (hx : x ∈ upsertBy key l a) : x = a ∨ x ∈ l := by
  unfold upsertBy at hx
  split at hx
  · rcases List.mem_map.mp hx with ⟨y, hy, hxy⟩
    by_cases h : key y = key a
    · left; rw [if_pos h] at hxy; exact hxy.symm
    · right; rw [if_neg h] at hxy; exact hxy ▸ hy
  · rcases List.mem_append.mp hx with h | h
    · right; exact h
    · left; simpa using h

theorem upsertBy_mem_of_ne {α β : Type} [DecidableEq β] (key : α → β) (l : List α) (a : α)
    (x : α) (hx : x ∈ upsertBy key l a) (hne : key x ≠ key a) : x ∈ l := by
  rcases upsertBy_mem key l a x hx with h | h
  · exact absurd (congrArg key h) hne
  · exact h

theorem upsertBy_self_mem {α β : Type} [DecidableEq β] (key : α → β) (l : List α) (a : α) :
    a ∈ upsertBy key l a := by
  unfold upsertBy
  split
  · next hany =>
    rcases List.any_eq_true.mp hany with ⟨x, hx, hkx⟩
    rw [decide_eq_true_eq] at hkx
    exact List.mem_map.mpr ⟨x, hx, by rw [if_pos hkx]⟩
  · simp

theorem upsertBy_key_forced {α β : Type} [DecidableEq β] (key : α → β) (l : List α) (a : α)
    (x : α) (hx : x ∈ upsertBy key l a) (hkey : key x = key a) : x = a := by
  unfold upsertBy at hx
  split at hx
  · rcases List.mem_map.mp hx with ⟨y, hy, hxy⟩
    by_cases h : key y = key a
    · rw [if_pos h] at hxy; exact hxy.symm
    · rw [if_neg h] at hxy; exact absurd (hxy ▸ hkey) h
  · next hany =>
    rw [Bool.not_eq_true] at hany
    rcases List.mem_append.mp hx with h | h
    · have := List.any_eq_false.mp hany x h
      simp [hkey] at this
    · simpa using h

theorem upsertBy_countP {α β : Type} [DecidableEq β] (key : α → β) (l : List α) (a : α)
    (h : (l.map key).Nodup) :
    (upsertBy key l a).countP (fun x => decide (key x = key a)) = 1 := by
  unfold upsertBy
  split
  · next hany =>
    rw [countP_key_replace key a l]
    rcases List.any_eq_true.mp hany with ⟨y, hy, hky⟩
    rw [decide_eq_true_eq] at hky
    clear hany
    induction l with
    | nil => simp at hy
    | cons z zs ih =>
      simp only [List.map_cons, List.nodup_cons] at h
      simp only [List.countP_cons]
      by_cases hz : key z = key a
      · have hzero : zs.countP (fun x => decide (key x = key a)) = 0 := by
          apply List.countP_eq_zero.mpr
          intro w hw
          simp only [decide_eq_true_eq]
          intro hwa
          exact h.1 (List.mem_map.mpr ⟨w, hw, by rw [hwa, hz]⟩)
        simp [hz, hzero]
      · rcases List.mem_cons.mp hy with rfl | hy2
        · exact absurd hky hz
        · have := ih h.2 hy2
          simp [hz, this]
  · next hany =>
    rw [Bool.not_eq_true] at hany
    rw [List.countP_append]
    have hzero : l.countP (fun x => decide (key x = key a)) = 0 := by
      apply List.countP_eq_zero.mpr
      intro y hy
      exact List.any_eq_false.mp hany y hy
    simp [hzero]

theorem insertS_perm {α : Type} (lt : α → α → Bool) (x : α) (l : List α) :
    (insertS lt x l).Perm (x :: l) := by
  induction l with
  | nil => simp [insertS]
  | cons y ys ih =>
    simp only [insertS]
    by_cases h : lt y x = true
    · rw [if_pos h]
      exact (ih.cons y).trans (List.Perm.swap x y ys)
    · rw [if_neg h]

theorem sortS_perm {α : Type} (lt : α → α → Bool) (l : List α) :
    (sortS lt l).Perm l := by
  induction l with
  | nil => simp [sortS]
  | cons x xs ih =>
    simp only [sortS]
    exact (insertS_perm lt x (sortS lt xs)).trans (ih.cons x)

theorem sortS_mem {α : Type} (lt : α → α → Bool) (l : List α) (x : α) :
    x ∈ sortS lt l ↔ x ∈ l :=
  (sortS_perm lt l).mem_iff

theorem insertS_sorted {α : Type} (lt : α → α → Bool)
    (hasym : ∀ a b, lt a b = true → lt b a = false)
    (hneg : ∀ a b c, lt b a = false → lt c b = false → lt c a = false)
    (x : α) (l : List α) (hl : l.Pairwise (fun a b => lt b a = false)) :
    (insertS lt x l).Pairwise (fun a b => lt b a = false) := by
  induction l with
  | nil => simp [insertS]
  | cons y ys ih =>
    simp only [insertS]
    rcases List.pairwise_cons.mp hl with ⟨hy, hys⟩
    by_cases h : lt y x = true
    · rw [if_pos h]
      apply List.pairwise_cons.mpr
      constructor
      · intro z hz
        rcases List.mem_cons.mp ((insertS_perm lt x ys).mem_iff.mp hz) with rfl | hz2
        · exact hasym y z h
        · exact hy z hz2
      · exact ih hys
    · rw [if_neg h]
      rw [Bool.not_eq_true] at h
      apply List.pairwise_cons.mpr
      refine ⟨?_, hl⟩
      intro z hz
      rcases List.mem_cons.mp hz with rfl | hz
      · exact h
      · exact hneg x y z h (hy z hz)

theorem sortS_sorted {α : Type} (lt : α → α → Bool)
    (hasym : ∀ a b, lt a b = true → lt b a = false)
    (hneg : ∀ a b c, lt b a = false → lt c b = false → lt c a = false)
    (l : List α) :
    (sortS lt l).Pairwise (fun a b => lt b a = false) := by
  induction l with
  | nil => simp [sortS]
  | cons x xs ih =>
    simp only [sortS]
    exact insertS_sorted lt hasym hneg x (sortS lt xs) ih

theorem insertS_filter {α : Type} (lt : α → α → Bool) (p : α → Bool) (x : α) (l : List α)
    (hx : ∀ y, p x = true → lt y x = true → p y = false) :
    (insertS lt x l).filter p = (x :: l).filter p := by
  induction l with
  | nil => simp [insertS]
  | cons y ys ih =>
    simp only [insertS]
    by_cases h : lt y x = true
    · rw [if_pos h]
      by_cases hpx : p x = true
      · have hpy : p y = false := hx y hpx h
        simp only [List.filter_cons, hpy, hpx]
        simp only [List.filter_cons] at ih
        simp only [hpx] at ih
        simpa [hpy] using ih
      · rw [Bool.not_eq_true] at hpx
        simp only [List.filter_cons, hpx]
        simp only [List.filter_cons] at ih
        simp only [hpx] at ih
        by_cases hpy : p y = true
        · simpa [hpy] using congrArg (List.cons y) ih
        · rw [Bool.not_eq_true] at hpy
          simpa [hpy] using ih
    · rw [if_neg h]

theorem sortS_filter_stable {α : Type} (lt : α → α → Bool) (p : α → Bool)
    (hp : ∀ x y, p x = true → p y = true → lt x y = false) (l : List α) :
    (sortS lt l).filter p = l.filter p := by
  induction l with
  | nil => simp [sortS]
  | cons x xs ih =>
    simp only [sortS]
    rw [insertS_filter lt p x (sortS lt xs)
      (fun y hpx hlt => by
        by_contra hc
        rw [Bool.not_eq_false] at hc
        rw [hp y x hc hpx] at hlt
        exact Bool.false_ne_true hlt)]
    simp only [List.filter_cons]
    rw [ih]

theorem sortS_const_key {α : Type} (f : α → ℚ) (c : ℚ) (l : List α)
    (h : ∀ x ∈ l, f x = c) :
    sortS (fun a b => decide (f a > f b)) l = l := by
  induction l with
  | nil => rfl
  | cons x xs ih =>
    have hx : f x = c := h x (List.mem_cons_self x xs)
    have hxs : ∀ y ∈ xs, f y = c := fun y hy => h y (List.mem_cons_of_mem x hy)
    simp only [sortS]
    rw [ih hxs]
    cases hc : xs with
    | nil => rfl
    | cons y ys =>
      have hy : f y = c := hxs y (hc ▸ List.mem_cons_self y ys)
      simp only [insertS]
      rw [if_neg (by simp [hx, hy])]

theorem isPrefixList_length (n : List Char) : ∀ h : List Char,
    isPrefixList n h = true → n.length ≤ h.length := by
  induction n with
  | nil => intro h _; simp
  | cons a as ih =>
    intro h hp
    cases h with
    | nil => simp [isPrefixList] at hp
    | cons b bs =>
      simp only [isPrefixList, Bool.and_eq_true] at hp
      have := ih bs hp.2
      simp only [List.length_cons]
      omega

theorem isPrefixList_eq_of_length (n : List Char) : ∀ h : List Char,
    isPrefixList n h = true → n.length = h.length → n = h := by
  induction n with
  | nil =>
    intro h _ hlen
    cases h with
    | nil => rfl
    | cons b bs => simp at hlen
  | cons a as ih =>
    intro h hp hlen
    cases h with
    | nil => simp [isPrefixList] at hp
    | cons b bs =>
      simp only [isPrefixList, Bool.and_eq_true, beq_iff_eq] at hp
      simp only [List.length_cons] at hlen
      rw [hp.1, ih bs hp.2 (by omega)]

theorem occursIn_length (n : List Char) : ∀ h : List Char,
    occursIn n h = true → n.length ≤ h.length := by
  intro h
  induction h with
  | nil =>
    intro hp
    simp only [occursIn] at hp
    exact isPrefixList_length n [] hp
  | cons c rest ih =>
    intro hp
    simp only [occursIn, Bool.or_eq_true] at hp
    rcases hp with hp | hp
    · exact isPrefixList_length n (c :: rest) hp
    · have := ih hp
      simp only [List.length_cons]
      omega

theorem occursIn_eq_of_length (n : List Char) : ∀ h : List Char,
    occursIn n h = true → n.length = h.length → n = h := by
  intro h
  induction h with
  | nil =>
    intro hp hlen
    simp only [occursIn] at hp
    exact isPrefixList_eq_of_length n [] hp hlen
  | cons c rest ih =>
    intro hp hlen
    simp only [occursIn, Bool.or_eq_true] at hp
    rcases hp with hp | hp
    · exact isPrefixList_eq_of_length n (c :: rest) hp hlen
    · have := occursIn_length n rest hp
      simp only [List.length_cons] at hlen
      omega

theorem toList_inj (s t : String) (h : s.toList = t.toList) : s = t := by
  cases s
  cases t
  simp only [String.toList] at h
  exact congrArg String.mk h

theorem likeContains_lt (name q : String)
    (hc : likeContains name q = true) (hne : pyLower name ≠ pyLower q) :
    (pyLower q).toList.length < (pyLower name).toList.length := by
  unfold likeContains at hc
  have hle := occursIn_length _ _ hc
  rcases Nat.lt_or_ge (pyLower q).toList.length (pyLower name).toList.length with h | h
  · exact h
  · have hlen : (pyLower q).toList.length = (pyLower name).toList.length := by omega
    have := occursIn_eq_of_length _ _ hc hlen
    exact absurd (toList_inj _ _ this.symm) hne

theorem foldl_max_init (f : Entity → Nat) (l : List Entity) : ∀ acc : Nat,
    acc ≤ l.foldl (fun a e => max a (f e)) acc := by
  induction l with
  | nil => intro acc; simp
  | cons x xs ih =>
    intro acc
    simp only [List.foldl_cons]
    exact le_trans (Nat.le_max_left acc (f x)) (ih (max acc (f x)))

theorem foldl_max_mem (f : Entity → Nat) (l : List Entity) (x : Entity) (hx : x ∈ l) :
    ∀ acc : Nat, f x ≤ l.foldl (fun a e => max a (f e)) acc := by
  induction l with
  | nil => simp at hx
  | cons y ys ih =>
    intro acc
    simp only [List.foldl_cons]
    rcases List.mem_cons.mp hx with rfl | hx2
    · exact le_trans (Nat.le_max_right acc (f x)) (foldl_max_init f ys (max acc (f x)))
    · exact ih hx2 (max acc (f y))

theorem mem_maxNameLen (st : Store) (e : Entity) (he : e ∈ st.entities) :
    (pyLower e.name).toList.length ≤ maxNameLen st :=
  foldl_max_mem (fun e => (pyLower e.name).toList.length) st.entities e he 0

theorem store_entity_frame (st : Store) (e : Entity) :
    (store_entity st e).relationships = st.relationships ∧
      (store_entity st e).memories = st.memories :=
  ⟨rfl, rfl⟩

theorem store_relationship_frame (st : Store) (r : Relationship) :
    (store_relationship st r).entities = st.entities ∧
      (store_relationship st r).memories = st.memories :=
  ⟨rfl, rfl⟩

theorem store_memory_frame (st : Store) (m : Memory) :
    (store_memory st m).entities = st.entities ∧
      (store_memory st m).relationships = st.relationships :=
  ⟨rfl, rfl⟩

theorem process_entity_frame (gid : String → String) (now : ℚ) (st : Store)
    (a b c : String) :
    ((process_entity gid now st a b c).1).relationships = st.relationships ∧
      ((process_entity gid now st a b c).1).memories = st.memories := by
  simp only [process_entity]
  cases get_entity st (gid (pyLower a)) <;> exact ⟨rfl, rfl⟩

theorem process_relationship_frame (gid : String → String) (now : ℚ) (st : Store)
    (a b c d : String) :
    ((process_relationship gid now st a b c d).1).entities = st.entities ∧
      ((process_relationship gid now st a b c d).1).memories = st.memories :=
  ⟨rfl, rfl⟩

theorem process_entity_nodup (gid : String → String) (now : ℚ) (st : Store)
    (a b c : String) (h : (st.entities.map Entity.id).Nodup) :
    (((process_entity gid now st a b c).1).entities.map Entity.id).Nodup := by
  simp only [process_entity]
  cases get_entity st (gid (pyLower a)) <;> exact upsertBy_nodup Entity.id st.entities _ h

theorem entities_fold_rel (gid : String → String) (now : ℚ)
    (cands : List (String × String × String)) : ∀ acc : Store × List String,
    ((cands.foldl (weaveEntitiesStep gid now) acc).1).relationships = acc.1.relationships ∧
      ((cands.foldl (weaveEntitiesStep gid now) acc).1).memories = acc.1.memories := by
  induction cands with
  | nil => intro acc; exact ⟨rfl, rfl⟩
  | cons c cs ih =>
    intro acc
    simp only [List.foldl_cons]
    have hstep := process_entity_frame gid now acc.1 c.1 c.2.1 c.2.2
    rcases ih (weaveEntitiesStep gid now acc c) with ⟨h1, h2⟩
    exact ⟨h1.trans hstep.1, h2.trans hstep.2⟩

theorem entities_fold_nodup (gid : String → String) (now : ℚ)
    (cands : List (String × String × String)) : ∀ acc : Store × List String,
    (acc.1.entities.map Entity.id).Nodup →
      (((cands.foldl (weaveEntitiesStep gid now) acc).1).entities.map Entity.id).Nodup := by
  induction cands with
  | nil => intro acc h; exact h
  | cons c cs ih =>
    intro acc h
    simp only [List.foldl_cons]
    exact ih (weaveEntitiesStep gid now acc c)
      (process_entity_nodup gid now acc.1 c.1 c.2.1 c.2.2 h)

theorem rels_fold_frame (gid : String → String) (now : ℚ)
    (cands : List (String × String × String × String)) : ∀ acc : Store × List String,
    ((cands.foldl (weaveRelationshipsStep gid now) acc).1).entities = acc.1.entities ∧
      ((cands.foldl (weaveRelationshipsStep gid now) acc).1).memories = acc.1.memories := by
  induction cands with
  | nil => intro acc; exact ⟨rfl, rfl⟩
  | cons c cs ih =>
    intro acc
    simp only [List.foldl_cons]
    have hstep := process_relationship_frame gid now acc.1 c.1 c.2.1 c.2.2.1 c.2.2.2
    rcases ih (weaveRelationshipsStep gid now acc c) with ⟨h1, h2⟩
    exact ⟨h1.trans hstep.1, h2.trans hstep.2⟩

theorem rels_fold_strength (gid : String → String) (now : ℚ)
    (cands : List (String × String × String × String)) : ∀ acc : Store × List String,
    (∀ r ∈ acc.1.relationships, r.strength = 7/10) →
      ∀ r ∈ ((cands.foldl (weaveRelationshipsStep gid now) acc).1).relationships,
        r.strength = 7/10 := by
  induction cands with
  | nil => intro acc h; exact h
  | cons c cs ih =>
    intro acc h
    simp only [List.foldl_cons]
    apply ih (weaveRelationshipsStep gid now acc c)
    intro r hr
    have hr2 := upsertBy_mem Relationship.id acc.1.relationships _ r hr
    rcases hr2 with rfl | hr2
    · rfl
    · exact h r hr2

theorem weave_entities_nodup (gid : String → String) (nlp : NLP) (now : ℚ)
    (content : String) (tags : List String) (st : Store)
    (h : (st.entities.map Entity.id).Nodup) :
    (((weave_memory gid nlp now content tags st).2).entities.map Entity.id).Nodup := by
  unfold weave_memory
  simp only
  rw [(store_memory_frame _ _).1,
    (rels_fold_frame gid now _ _).1]
  exact entities_fold_nodup gid now _ _ h

theorem weave_strength (gid : String → String) (nlp : NLP) (now : ℚ)
    (content : String) (tags : List String) (st : Store)
    (h : ∀ r ∈ st.relationships, r.strength = 7/10) :
    ∀ r ∈ ((weave_memory gid nlp now content tags st).2).relationships,
      r.strength = 7/10 := by
  unfold weave_memory
  simp only
  rw [(store_memory_frame _ _).2]
  apply rels_fold_strength gid now _ _
  rw [(entities_fold_rel gid now _ _).1]
  exact h

theorem get_entity_some (st : Store) (eid : String) (ex : Entity)
    (h : get_entity st eid = some ex) : ex ∈ st.entities ∧ ex.id = eid := by
  unfold get_entity at h
  refine ⟨List.mem_of_find?_eq_some h, ?_⟩
  have := List.find?_some h
  simpa using this

theorem get_entity_none (st : Store) (eid : String)
    (h : get_entity st eid = none) : ∀ e ∈ st.entities, e.id ≠ eid := by
  unfold get_entity at h
  intro e he
  have := List.find?_eq_none.mp h e he
  simpa using this

/-- C3: the Memory importance equals
`0.5 + min(0.1 * entityCount, 0.3) + min(contentLength / 1000, 0.2)`,
always lies in `[0.5, 1.0]`, and the two caps are reached exactly at
`entityCount >= 3` and `contentLength >= 200`. -/
theorem memory_importance_formula (content : String) (entities : List String) :
    calculate_memory_importance content entities =
      1/2 + min ((entities.length : ℚ) * (1/10)) (3/10) +
        min ((content.length : ℚ) / 1000) (1/5) ∧
    1/2 ≤ calculate_memory_importance content entities ∧
    calculate_memory_importance content entities ≤ 1 ∧
    (min ((entities.length : ℚ) * (1/10)) (3/10) = 3/10 ↔ 3 ≤ entities.length) ∧
    (min ((content.length : ℚ) / 1000) (1/5) = 1/5 ↔ 200 ≤ content.length) := by
  refine ⟨rfl, ?_, ?_, ?_, ?_⟩
  · unfold calculate_memory_importance
    have h1 : (0:ℚ) ≤ min ((entities.length : ℚ) * (1/10)) (3/10) :=
      le_min (by positivity) (by norm_num)
    have h2 : (0:ℚ) ≤ min ((content.length : ℚ) / 1000) (1/5) :=
      le_min (by positivity) (by norm_num)
    linarith
  · unfold calculate_memory_importance
    have h1 : min ((entities.length : ℚ) * (1/10)) (3/10) ≤ 3/10 := min_le_right _ _
    have h2 : min ((content.length : ℚ) / 1000) (1/5) ≤ 1/5 := min_le_right _ _
    linarith
  · rw [min_eq_right_iff]
    constructor
    · intro h
      have h2 : (3:ℚ) ≤ (entities.length : ℚ) := by linarith
      exact_mod_cast h2
    · intro h
      have h2 : (3:ℚ) ≤ (entities.length : ℚ) := by exact_mod_cast h
      linarith
  · rw [min_eq_right_iff]
    constructor
    · intro h
      have h2 : (200:ℚ) ≤ (content.length : ℚ) := by linarith
      exact_mod_cast h2
    · intro h
      have h2 : (200:ℚ) ≤ (content.length : ℚ) := by exact_mod_cast h
      linarith

/-- C1: per mention, an existing entity (keyed by the id of the
lower-cased name) is mutated in place — `last_accessed = now`,
`access_count + 1`, `importance_score + 0.1` — and otherwise a fresh
entity with `access_count = 1`, `importance_score = 0.5`,
`contexts = [context]`, `created_at = last_accessed = now` is appended;
ids stay duplicate-free, both per mention and across a whole
`weave_memory` call, so no second record for the same lower-cased name is
ever created. -/
theorem entity_upsert_semantics (gid : String → String) (now : ℚ) (st : Store)
    (name etype ctx : String) (hnodup : (st.entities.map Entity.id).Nodup) :
    ((∃ ex, get_entity st (gid (pyLower name)) = some ex ∧
        ((process_entity gid now st name etype ctx).1).entities =
          st.entities.map (fun x => if x.id = gid (pyLower name) then
            { ex with
              last_accessed := now
              access_count := ex.access_count + 1
              importance_score := ex.importance_score + 1/10 } else x)) ∨
      (get_entity st (gid (pyLower name)) = none ∧
        ((process_entity gid now st name etype ctx).1).entities =
          st.entities ++ [{ id := gid (pyLower name), name := name, etype := etype
                            contexts := [ctx], created_at := now, last_accessed := now
                            access_count := 1, importance_score := 1/2 }])) ∧
    (((process_entity gid now st name etype ctx).1).entities.map Entity.id).Nodup ∧
    ∀ (nlp : NLP) (content : String) (tags : List String),
      (((weave_memory gid nlp now content tags st).2).entities.map Entity.id).Nodup := by
  refine ⟨?_, process_entity_nodup gid now st name etype ctx hnodup,
    fun nlp content tags => weave_entities_nodup gid nlp now content tags st hnodup⟩
  cases hge : get_entity st (gid (pyLower name)) with
  | some ex =>
    obtain ⟨hmem, hid⟩ := get_entity_some st _ ex hge
    left
    refine ⟨ex, rfl, ?_⟩
    simp only [process_entity, hge, store_entity]
    unfold upsertBy
    rw [if_pos (List.any_eq_true.mpr ⟨ex, hmem, decide_eq_true (show ex.id = ex.id from rfl)⟩)]
    rw [← hid]
  | none =>
    right
    refine ⟨rfl, ?_⟩
    simp only [process_entity, hge, store_entity]
    unfold upsertBy
    rw [if_neg (by
      intro hc
      rcases List.any_eq_true.mp hc with ⟨e, he, hkey⟩
      rw [decide_eq_true_eq] at hkey
      exact get_entity_none st _ hge e he hkey)]

theorem entity_upsert_semantics_witness :
    (((process_entity demoGid 0 demoStore "Alice" "PERSON" "greeting").1).entities.map
      Entity.id).Nodup :=
  (entity_upsert_semantics demoGid 0 demoStore "Alice" "PERSON" "greeting" (by decide)).2.1

/-- C2 counterexample: upserting the same `(source, target, relation_type)`
triple at times `1` and then `2` leaves a single record whose `created_at`
is `2`, the later timestamp — not the value `1` set when the relationship
was first created, refuting the claim that `created_at` is preserved. -/
theorem relationship_created_at_not_preserved :
    ((process_relationship demoGid 1
        { entities := [], relationships := [], memories := [] }
        "a" "b" "T" "c1").1).relationships.map Relationship.created_at = [1] ∧
    ((process_relationship demoGid 2
        ((process_relationship demoGid 1
          { entities := [], relationships := [], memories := [] }
          "a" "b" "T" "c1").1)
        "a" "b" "T" "c2").1).relationships.map Relationship.created_at = [2] := by
  constructor <;> decide

/-- C2 (amended): a repeated upsert of the same
`(source, target, relation_type)` triple leaves exactly one stored record
for that triple; the repeat rewrites the whole row — `context = c2` and
`last_reinforced = t2` are refreshed, `strength` is re-set to the constant
initial `0.7`, and `created_at` is overwritten to the later timestamp
`t2` rather than keeping the first-created value. -/
theorem relationship_repeat_upsert (gid : String → String) (t1 t2 : ℚ) (st : Store)
    (source target relation_type c1 c2 : String)
    (hnodup : (st.relationships.map Relationship.id).Nodup) :
    ((process_relationship gid t2
        ((process_relationship gid t1 st source target relation_type c1).1)
        source target relation_type c2).1).relationships.countP
      (fun r => decide (r.id =
        gid (gid (pyLower source) ++ "_" ++ gid (pyLower target) ++ "_" ++ relation_type))) = 1 ∧
    ∀ r ∈ ((process_relationship gid t2
        ((process_relationship gid t1 st source target relation_type c1).1)
        source target relation_type c2).1).relationships,
      r.id = gid (gid (pyLower source) ++ "_" ++ gid (pyLower target) ++ "_" ++ relation_type) →
        r = { id := gid (gid (pyLower source) ++ "_" ++ gid (pyLower target) ++ "_" ++ relation_type),
              source_id := gid (pyLower source), target_id := gid (pyLower target),
              relation_type := relation_type, strength := 7/10, context := c2,
              created_at := t2, last_reinforced := t2 } := by
  simp only [process_relationship, store_relationship]
  constructor
  · exact upsertBy_countP Relationship.id _
      ⟨gid (gid (pyLower source) ++ "_" ++ gid (pyLower target) ++ "_" ++ relation_type),
        gid (pyLower source), gid (pyLower target), relation_type, 7/10, c2, t2, t2⟩
      (upsertBy_nodup Relationship.id st.relationships _ hnodup)
  · intro r hr hid
    exact upsertBy_key_forced Relationship.id _
      ⟨gid (gid (pyLower source) ++ "_" ++ gid (pyLower target) ++ "_" ++ relation_type),
        gid (pyLower source), gid (pyLower target), relation_type, 7/10, c2, t2, t2⟩
      r hr hid

theorem relationship_repeat_upsert_witness :
    ((process_relationship demoGid 2
        ((process_relationship demoGid 1
          { entities := [], relationships := [], memories := [] }
          "a" "b" "T" "c1").1)
        "a" "b" "T" "c2").1).relationships.countP
      (fun r => decide (r.id =
        demoGid (demoGid (pyLower "a") ++ "_" ++ demoGid (pyLower "b") ++ "_" ++ "T"))) = 1 :=
  (relationship_repeat_upsert demoGid 1 2
    { entities := [], relationships := [], memories := [] }
    "a" "b" "T" "c1" "c2" (by decide)).1

theorem scored_fold_filterMap (nlp : NLP) (query : String) (l : List Memory) :
    ∀ acc : List ScoredMemory,
    l.foldl
      (fun acc m =>
        if total_score nlp query m > 1/10 then acc ++ [scoreEntry nlp query m] else acc)
      acc = acc ++ l.filterMap (scoreFilter nlp query) := by
  induction l with
  | nil => intro acc; simp
  | cons m ms ih =>
    intro acc
    simp only [List.foldl_cons, List.filterMap_cons]
    by_cases h : total_score nlp query m > 1/10
    · rw [if_pos h, ih (acc ++ [scoreEntry nlp query m])]
      have hsf : scoreFilter nlp query m = some (scoreEntry nlp query m) := by
        unfold scoreFilter
        rw [if_pos h]
      rw [hsf]
      simp
    · rw [if_neg h, ih acc]
      have hsf : scoreFilter nlp query m = none := by
        unfold scoreFilter
        rw [if_neg h]
      rw [hsf]

theorem scoreDesc_asym (a b : ScoredMemory) (h : scoreDesc a b = true) :
    scoreDesc b a = false := by
  unfold scoreDesc at h ⊢
  rw [decide_eq_true_eq] at h
  rw [decide_eq_false_iff_not]
  exact not_lt.mpr (le_of_lt h)

theorem scoreDesc_negtrans (a b c : ScoredMemory)
    (h1 : scoreDesc b a = false) (h2 : scoreDesc c b = false) :
    scoreDesc c a = false := by
  unfold scoreDesc at h1 h2 ⊢
  rw [decide_eq_false_iff_not, not_lt] at h1 h2
  rw [decide_eq_false_iff_not, not_lt]
  exact le_trans h2 h1

/-- C4: `find_related_memories` returns exactly the stable-descending sort
of the scored entries that clear the `0.1` floor, truncated to `limit`;
every returned entry scores above `0.1` and carries the score
`contentSimilarity + entityBoost + importance * 0.1` of some stored
memory; the output is sorted descending by score, has at most `limit`
elements, and ties keep the scan order (filtering the sorted list at any
fixed score leaves the scan order unchanged). -/
theorem find_related_postcondition (nlp : NLP) (query : String) (limit : Nat) (st : Store) :
    find_related_memories nlp query limit st =
      (sortS scoreDesc (relevantMemories nlp query st)).take limit ∧
    (∀ x ∈ find_related_memories nlp query limit st,
      x.score > 1/10 ∧ ∃ m ∈ st.memories, x = scoreEntry nlp query m) ∧
    (find_related_memories nlp query limit st).length ≤ limit ∧
    (find_related_memories nlp query limit st).Pairwise (fun a b => b.score ≤ a.score) ∧
    (sortS scoreDesc (relevantMemories nlp query st)).Perm
      (relevantMemories nlp query st) ∧
    ∀ c : ℚ, (sortS scoreDesc (relevantMemories nlp query st)).filter
        (fun x => decide (x.score = c)) =
      (relevantMemories nlp query st).filter (fun x => decide (x.score = c)) := by
  have hfr : find_related_memories nlp query limit st =
      (sortS scoreDesc (relevantMemories nlp query st)).take limit := by
    simp only [find_related_memories]
    rw [scored_fold_filterMap nlp query (loadMemories st) []]
    rfl
  refine ⟨hfr, ?_, ?_, ?_, sortS_perm scoreDesc _, ?_⟩
  · intro x hx
    rw [hfr] at hx
    have hx2 : x ∈ sortS scoreDesc (relevantMemories nlp query st) :=
      List.take_subset limit _ hx
    have hx3 : x ∈ relevantMemories nlp query st :=
      (sortS_mem scoreDesc _ x).mp hx2
    unfold relevantMemories at hx3
    rcases List.mem_filterMap.mp hx3 with ⟨m, hm, hsf⟩
    unfold scoreFilter at hsf
    by_cases h : total_score nlp query m > 1/10
    · rw [if_pos h] at hsf
      injection hsf with hsf
      constructor
      · rw [← hsf]
        exact h
      · exact ⟨m, (sortS_mem memOrder st.memories m).mp hm, hsf.symm⟩
    · rw [if_neg h] at hsf
      cases hsf
  · rw [hfr]
    exact List.length_take_le limit _
  · rw [hfr]
    apply List.Pairwise.sublist (List.take_sublist limit _)
    have hs := sortS_sorted scoreDesc scoreDesc_asym scoreDesc_negtrans
      (relevantMemories nlp query st)
    apply hs.imp
    intro a b hab
    unfold scoreDesc at hab
    rw [decide_eq_false_iff_not, not_lt] at hab
    exact hab
  · intro c
    apply sortS_filter_stable
    intro x y hx hy
    rw [decide_eq_true_eq] at hx hy
    unfold scoreDesc
    rw [decide_eq_false_iff_not, not_lt, hx, hy]

theorem find_related_postcondition_witness :
    find_related_memories noNLP "hello world" 5 memStore =
      (sortS scoreDesc (relevantMemories noNLP "hello world" memStore)).take 5 :=
  (find_related_postcondition noNLP "hello world" 5 memStore).1

theorem getEntityNetworkF_succ (gid : String → String) (st : Store) (fuel : Nat) (q : String) :
    getEntityNetworkF gid st (fuel + 1) q =
      (if (sortS relStrengthDesc (networkRows gid st q)).isEmpty then
        match st.entities.filter (fun e => likeContains e.name q) with
        | [] => some
            { center_entity := q
              relationships := (sortS relStrengthDesc (networkRows gid st q)).map rowToDisplay
              connected_entities := connectedOf (sortS relStrengthDesc (networkRows gid st q)) }
        | m :: _ =>
          if pyLower m.name = pyLower q then some
            { center_entity := q
              relationships := (sortS relStrengthDesc (networkRows gid st q)).map rowToDisplay
              connected_entities := connectedOf (sortS relStrengthDesc (networkRows gid st q)) }
          else getEntityNetworkF gid st fuel m.name
      else some
        { center_entity := q
          relationships := (sortS relStrengthDesc (networkRows gid st q)).map rowToDisplay
          connected_entities := connectedOf (sortS relStrengthDesc (networkRows gid st q)) }) :=
  rfl

theorem fallback_termination_aux (gid : String → String) (st : Store) :
    ∀ (fuel : Nat) (q : String), 1 ≤ fuel →
      maxNameLen st + 2 ≤ fuel + (pyLower q).toList.length →
      (getEntityNetworkF gid st fuel q).isSome = true := by
  intro fuel
  induction fuel with
  | zero =>
    intro q h1 _
    exact absurd h1 (by omega)
  | succ f ih =>
    intro q h1 h2
    rw [getEntityNetworkF_succ gid st f q]
    by_cases hemp : (sortS relStrengthDesc (networkRows gid st q)).isEmpty = true
    · rw [if_pos hemp]
      split
      · simp
      · next m rest hm =>
        by_cases heq : pyLower m.name = pyLower q
        · rw [if_pos heq]
          simp
        · rw [if_neg heq]
          have hmem : m ∈ st.entities.filter (fun e => likeContains e.name q) := by
            rw [hm]
            exact List.mem_cons_self m rest
          rw [List.mem_filter] at hmem
          obtain ⟨hment, hlike⟩ := hmem
          have hlt := likeContains_lt m.name q hlike heq
          have hmax := mem_maxNameLen st m hment
          exact ih m.name (by omega) (by omega)
    · rw [if_neg hemp]
      simp

/-- C5: the recursive fallback of `get_entity_network` terminates — every
recursion step passes a stored name whose lower-cased form strictly
contains the previous query's lower-cased form, so with fuel beyond the
longest stored lower-cased entity name the computation always completes. -/
theorem fallback_termination (gid : String → String) (st : Store) (entity_name : String)
    (fuel : Nat) (h : maxNameLen st + 2 ≤ fuel) :
    (getEntityNetworkF gid st fuel entity_name).isSome = true :=
  fallback_termination_aux gid st fuel entity_name (by omega) (by omega)

theorem fallback_termination_witness :
    (getEntityNetworkF demoGid joinStore 10 "Ali").isSome = true :=
  fallback_termination demoGid joinStore "Ali" 10 (by decide)

theorem relStrengthDesc_asym (a b : Relationship × String × String)
    (h : relStrengthDesc a b = true) : relStrengthDesc b a = false := by
  unfold relStrengthDesc at h ⊢
  rw [decide_eq_true_eq] at h
  rw [decide_eq_false_iff_not]
  exact not_lt.mpr (le_of_lt h)

theorem relStrengthDesc_negtrans (a b c : Relationship × String × String)
    (h1 : relStrengthDesc b a = false) (h2 : relStrengthDesc c b = false) :
    relStrengthDesc c a = false := by
  unfold relStrengthDesc at h1 h2 ⊢
  rw [decide_eq_false_iff_not, not_lt] at h1 h2
  rw [decide_eq_false_iff_not, not_lt]
  exact le_trans h2 h1

/-- C6 counterexample: `danglingStore` holds exactly one relationship
incident to the id of `alice`, but its target id `bob` has no Entity row,
so the inner join of `get_entity_network` drops it and the returned
network lists no relationships — refuting the claim that such dangling
relationships are included. -/
theorem entity_network_dangling_omitted :
    danglingStore.relationships.countP
      (fun r => decide (r.source_id = demoGid (pyLower "Alice") ∨
        r.target_id = demoGid (pyLower "Alice"))) = 1 ∧
    (get_entity_network demoGid danglingStore "Alice").relationships = [] := by
  constructor <;> decide

/-- C6 (amended): every stored relationship incident to the id of the
lower-cased query whose source and target ids both resolve to stored
Entity rows appears in the returned network (as its joined display row),
and the network's relationship list is ordered by strength descending with
the original query as center.  Incident relationships with a dangling
endpoint are excluded by the join. -/
theorem entity_network_completeness (gid : String → String) (st : Store) (q : String)
    (r : Relationship) (e1 e2 : Entity)
    (hr : r ∈ st.relationships)
    (hinc : r.source_id = gid (pyLower q) ∨ r.target_id = gid (pyLower q))
    (he1 : e1 ∈ st.entities) (hid1 : r.source_id = e1.id)
    (he2 : e2 ∈ st.entities) (hid2 : r.target_id = e2.id) :
    rowToDisplay (r, e1.name, e2.name) ∈ (get_entity_network gid st q).relationships ∧
    (get_entity_network gid st q).relationships.Pairwise
      (fun a b => b.strength ≤ a.strength) ∧
    (get_entity_network gid st q).center_entity = q := by
  have hrow : (r, e1.name, e2.name) ∈ networkRows gid st q := by
    unfold networkRows
    rw [List.mem_flatMap]
    refine ⟨r, hr, ?_⟩
    rw [List.mem_flatMap]
    refine ⟨e1, he1, ?_⟩
    rw [List.mem_flatMap]
    refine ⟨e2, he2, ?_⟩
    rw [if_pos ⟨hid1, hid2, hinc⟩]
    exact List.mem_singleton.mpr rfl
  have hsmem : (r, e1.name, e2.name) ∈ sortS relStrengthDesc (networkRows gid st q) :=
    (sortS_mem relStrengthDesc _ _).mpr hrow
  have hne : (sortS relStrengthDesc (networkRows gid st q)).isEmpty = false := by
    rw [List.isEmpty_eq_false]
    exact List.ne_nil_of_mem hsmem
  have hnet : get_entity_network gid st q =
      { center_entity := q
        relationships := (sortS relStrengthDesc (networkRows gid st q)).map rowToDisplay
        connected_entities := connectedOf (sortS relStrengthDesc (networkRows gid st q)) } := by
    unfold get_entity_network
    show (getEntityNetworkF gid st (maxNameLen st + 1 + 1) q).getD _ = _
    rw [getEntityNetworkF_succ]
    rw [if_neg (by rw [hne]; exact Bool.false_ne_true)]
    rfl
  rw [hnet]
  refine ⟨List.mem_map_of_mem rowToDisplay hsmem, ?_, rfl⟩
  rw [List.pairwise_map]
  have hs := sortS_sorted relStrengthDesc relStrengthDesc_asym relStrengthDesc_negtrans
    (networkRows gid st q)
  apply hs.imp
  intro a b hab
  unfold relStrengthDesc at hab
  rw [decide_eq_false_iff_not, not_lt] at hab
  exact hab

theorem entity_network_completeness_witness :
    rowToDisplay
      (⟨"alice_bob_KNOWS", "alice", "bob", "KNOWS", 7/10, "c", 0, 0⟩, "Alice", "Bob") ∈
      (get_entity_network demoGid joinStore "Alice").relationships :=
  (entity_network_completeness demoGid joinStore "Alice"
    ⟨"alice_bob_KNOWS", "alice", "bob", "KNOWS", 7/10, "c", 0, 0⟩
    ⟨"alice", "Alice", "PERSON", [], 0, 0, 1, 1/2⟩
    ⟨"bob", "Bob", "PERSON", [], 0, 0, 1, 1/2⟩
    (List.mem_cons_self _ _) (by decide)
    (List.mem_cons_self _ _) rfl
    (List.mem_cons_of_mem _ (List.mem_cons_self _ _)) rfl).1

/-- C8: when the queried name has no incident relationships and no stored
entity name contains it case-insensitively, `get_entity_network` returns
the empty network for the original name — no error, empty relationship
list, empty connected-entity set. -/
theorem no_match_fallback_empty_network (gid : String → String) (st : Store)
    (entity_name : String)
    (hrel : ∀ r ∈ st.relationships,
      r.source_id ≠ gid (pyLower entity_name) ∧ r.target_id ≠ gid (pyLower entity_name))
    (hmatch : ∀ e ∈ st.entities, likeContains e.name entity_name = false) :
    get_entity_network gid st entity_name =
      { center_entity := entity_name, relationships := [], connected_entities := [] } := by
  have hrows : networkRows gid st entity_name = [] := by
    rw [List.eq_nil_iff_forall_not_mem]
    intro row hrow
    unfold networkRows at hrow
    rw [List.mem_flatMap] at hrow
    obtain ⟨r, hr, hrow⟩ := hrow
    rw [List.mem_flatMap] at hrow
    obtain ⟨e1, he1, hrow⟩ := hrow
    rw [List.mem_flatMap] at hrow
    obtain ⟨e2, he2, hrow⟩ := hrow
    by_cases hc : r.source_id = e1.id ∧ r.target_id = e2.id ∧
        (r.source_id = gid (pyLower entity_name) ∨ r.target_id = gid (pyLower entity_name))
    · rcases hc.2.2 with h | h
      · exact absurd h (hrel r hr).1
      · exact absurd h (hrel r hr).2
    · rw [if_neg hc] at hrow
      simp at hrow
  have hfilter : st.entities.filter (fun e => likeContains e.name entity_name) = [] := by
    rw [List.filter_eq_nil_iff]
    intro e he
    rw [hmatch e he]
    exact Bool.false_ne_true
  unfold get_entity_network
  show (getEntityNetworkF gid st (maxNameLen st + 1 + 1) entity_name).getD _ = _
  rw [getEntityNetworkF_succ, hrows, hfilter]
  rfl

theorem no_match_fallback_empty_network_witness :
    get_entity_network demoGid demoStore "Zzz" =
      { center_entity := "Zzz", relationships := [], connected_entities := [] } :=
  no_match_fallback_empty_network demoGid demoStore "Zzz" (by decide) (by decide)

/-- C7 counterexample: on a concrete input the return value of
`add_memory` differs from the id of the Memory produced by the underlying
weave call — `add_memory` returns the formatted message, not the bare
MemoryID. -/
theorem add_memory_not_bare_id :
    (add_memory demoGid noNLP 0 "x" []
        { entities := [], relationships := [], memories := [] }).2 ≠
      (weave_memory demoGid noNLP 0 "x" []
        { entities := [], relationships := [], memories := [] }).1.id := by
  intro h
  have hlen := congrArg String.length h
  rw [show (add_memory demoGid noNLP 0 "x" []
      { entities := [], relationships := [], memories := [] }).2 =
      "Memory stored with ID: " ++
        (weave_memory demoGid noNLP 0 "x" []
          { entities := [], relationships := [], memories := [] }).1.id from rfl] at hlen
  rw [String.length_append] at hlen
  rw [show ("Memory stored with ID: ").length = 23 from rfl] at hlen
  omega

/-- C7 (amended): `add_memory` returns the message string
`"Memory stored with ID: " ++ id`, where `id` is the id field of the
Memory object produced by the underlying weave call; that Memory itself is
persisted in the returned store. -/
theorem add_memory_message_format (gid : String → String) (nlp : NLP) (now : ℚ)
    (content : String) (tags : List String) (st : Store) :
    (add_memory gid nlp now content tags st).2 =
      "Memory stored with ID: " ++ (weave_memory gid nlp now content tags st).1.id ∧
    (weave_memory gid nlp now content tags st).1 ∈
      (add_memory gid nlp now content tags st).1.memories := by
  refine ⟨rfl, ?_⟩
  exact upsertBy_self_mem Memory.id _ _

/-- C9: in every store reachable from a fresh database through the core's
only mutating operation (`weave_memory`), every relationship record has
strength exactly `0.7`; consequently the strength-descending ordering used
by `get_entity_network` never moves any row — sorting rows of constant
strength is the identity. -/
theorem strength_constant_invariant (gid : String → String) (st : Store)
    (h : Reachable gid st) :
    (st.relationships.all fun r => decide (r.strength = 7/10)) = true ∧
    ∀ rows : List (Relationship × String × String),
      (∀ x ∈ rows, x.1.strength = 7/10) → sortS relStrengthDesc rows = rows := by
  constructor
  · induction h with
    | init => rfl
    | step nlp now content tags st2 hst ih =>
      rw [List.all_eq_true]
      intro r hr
      rw [decide_eq_true_eq]
      exact weave_strength gid nlp now content tags st2
        (fun r2 hr2 => by
          have h2 := List.all_eq_true.mp ih r2 hr2
          rwa [decide_eq_true_eq] at h2) r hr
  · intro rows hrows
    exact sortS_const_key (fun x : Relationship × String × String => x.1.strength)
      (7/10) rows hrows

theorem strength_constant_invariant_witness :
    ((weave_memory demoGid relNLP 0 "a works at b" []
        { entities := [], relationships := [], memories := [] }).2.relationships.all
      fun r => decide (r.strength = 7/10)) = true :=
  (strength_constant_invariant demoGid _
    (Reachable.step relNLP 0 "a works at b" [] _ Reachable.init)).1

/-- C10: the query operations are read-only — `query_memory` and
`explore_entity` hand back the store they were given with every table
unchanged, so running entity extraction on a query never upserts an
entity and no `access_count` or `importance_score` changes as a side
effect of querying. -/
theorem queries_read_only (gid : String → String) (nlp : NLP)
    (query entity_name : String) (limit : Nat) (st : Store) :
    (query_memory nlp query limit st).1 = st ∧
    (explore_entity gid st entity_name).1 = st ∧
    (query_memory nlp query limit st).1.entities = st.entities ∧
    (explore_entity gid st entity_name).1.entities = st.entities ∧
    (query_memory nlp query limit st).1.relationships = st.relationships ∧
    (explore_entity gid st entity_name).1.relationships = st.relationships ∧
    (query_memory nlp query limit st).1.memories = st.memories ∧
    (explore_entity gid st entity_name).1.memories = st.memories :=
  ⟨rfl, rfl, rfl, rfl, rfl, rfl, rfl, rfl⟩

end ContextualMemory
